import Mathlib

/-!
Verification development for a boundary-tagged first-fit allocator
(src/malloc.c).

The C code manipulates the heap exclusively through word-sized
(8-byte) loads and stores at word-aligned addresses: every fence and
every free-node field is a single size_t or pointer word.  We
therefore embed the heap as a word-keyed store: an association list
from byte addresses (of word cells) to word values, newest write
first.  A read of a never-written cell returns 0, which matches the
zero-fill guarantee of freshly grown break memory; all addresses the
code actually dereferences are either freshly grown or previously
written.  Pointers are byte addresses as natural numbers, with 0
playing the role of NULL.  size_t arithmetic that can wrap is taken
modulo 2^64 exactly where the C expression can wrap.

Loops of the C source that walk the free list can diverge on cyclic
lists, so they take explicit fuel; exhausting fuel (or a NULL
dereference that would crash the C program) is reported as the
distinguished outcome MR.div, kept apart from a NULL return.

The break primitive get_memory lives in memreq.c, which is not under
src/.  Modelled from the spec: grow_raw(bytes) extends the process
break by bytes (already a page multiple) and returns the previous
break, or null on failure; sysconf page-size queries are an
environment input.  Both appear as fields of the Heap state
(memLimit, sysPageSize); get_memory succeeds exactly while the break
stays within memLimit.
-/

namespace MallocModel

/-- 2^64, the size_t modulus. -/
def W64 : Nat := 2 ^ 64

/-- errno value ENOMEM. -/
def ENOMEM : Nat := 12

/-- sizeof(struct fnode): size word plus two pointer words. -/
def NODE_SIZE : Nat := 24

/-- sizeof(struct fence): one size word. -/
def FENCE_SIZE : Nat := 8

/-- NODE_SIZE + FENCE_SIZE. -/
def NODE_OVERHEAD : Nat := 32

/-- 2 * FENCE_SIZE. -/
def FENCE_OVERHEAD : Nat := 16

/-- NODE_SIZE - FENCE_SIZE. -/
def DIFF_OVERHEAD : Nat := 16

/-- SET_USED(x) = x | 1, written arithmetically on the size word. -/
def SET_USED (x : Nat) : Nat := 2 * (x / 2) + 1

/-- SET_FREE(x) = x & ~1. -/
def SET_FREE (x : Nat) : Nat := 2 * (x / 2)

/-- ISUSED(x) = x & 1, as a Bool. -/
def ISUSED (x : Nat) : Bool := x % 2 == 1

/-- GETSIZE(x) = (x >> 1) << 1. -/
def GETSIZE (x : Nat) : Nat := 2 * (x / 2)

/-- ROUNDUP_16(x) = ((((x-1)>>4)+1)<<4) with size_t wraparound. -/
def ROUNDUP_16 (x : Nat) : Nat := ((x + W64 - 1) % W64 / 16 + 1) * 16 % W64

/-- ROUNDUP_PAGE(x) over a given page size, with size_t wraparound. -/
def ROUNDUP_PAGE (ps x : Nat) : Nat := ((x + W64 - 1) % W64 / ps + 1) * ps % W64

/-- ROUNDUP_CHUNK(x) = ROUNDUP_16(MAX(x, DIFF_OVERHEAD) + FENCE_OVERHEAD). -/
def ROUNDUP_CHUNK (x : Nat) : Nat :=
  ROUNDUP_16 ((max x DIFF_OVERHEAD + FENCE_OVERHEAD) % W64)

/-- The heap store: word cells keyed by byte address, newest write first. -/
abbrev Mem := List (Nat × Nat)

/-- Read the word cell at address a; never-written cells read as 0. -/
def readW : Mem → Nat → Nat
  | [], _ => 0
  | kv :: rest, a => if kv.1 = a then kv.2 else readW rest a

/-- Store word v into the cell at address a. -/
def writeW (m : Mem) (a v : Nat) : Mem := (a, v) :: m

@[simp] theorem readW_writeW (m : Mem) (a v x : Nat) :
    readW (writeW m a v) x = if a = x then v else readW m x := rfl

/-- Allocator state: the heap words plus the C file-scope globals
(PAGE_SIZE, flist, HEAP_START) and the environment of the break
primitive (current break, break limit, system page size), a counter
of malloc_expand invocations, and errno. -/
structure Heap where
  mem : Mem
  PAGE_SIZE : Nat
  flist : Nat
  HEAP_START : Nat
  brk : Nat
  memLimit : Nat
  sysPageSize : Nat
  growCalls : Nat
  errno : Nat
  deriving DecidableEq, Repr

/-- Outcome of an entry point that returns a pointer: a payload
pointer with the new state, a NULL return with errno = ENOMEM, or
divergence (an infinite list walk or NULL dereference in the C code). -/
inductive MR where
  | ok (p : Nat) (h : Heap)
  | oom (h : Heap)
  | div
  deriving DecidableEq, Repr

/-- helper: count of leading-significant bits, C function highest.
The C loop shifts right until the word is zero; a size_t has 64 bits,
so 64 iterations always suffice, which the fuel argument makes
structural. -/
def highestAux : Nat → Nat → Nat
  | 0, _ => 0
  | fuel + 1, n => if n = 0 then 0 else highestAux fuel (n / 2) + 1

/-- C function highest: position of the highest set bit (bit length). -/
def highest (n : Nat) : Nat := highestAux 64 n

/-- malloc_fnode_assign_free: write the free header, copy it to the
footer at start + size - FENCE_SIZE, and null the prev/next links,
in the order of the C statements. -/
def malloc_fnode_assign_free (m : Mem) (start size : Nat) : Mem :=
  let m1 := writeW m start (SET_FREE size)
  let m2 := writeW m1 (start + size - 8) (SET_FREE size)
  let m3 := writeW m2 (start + 8) 0
  writeW m3 (start + 16) 0

/-- malloc_fnode_assign_used: write header and footer with the used
bit set and null the prev/next words, in the order of the C
statements. -/
def malloc_fnode_assign_used (m : Mem) (start size : Nat) : Mem :=
  let m1 := writeW m start (SET_USED size)
  let m2 := writeW m1 (start + size - 8) (SET_USED size)
  let m3 := writeW m2 (start + 8) 0
  writeW m3 (start + 16) 0

/-- malloc_find_fit: first list node whose size word is at least the
request.  some 0 is the NULL return of the C function; none is fuel
exhaustion (the C loop runs forever on a cyclic list). -/
def malloc_find_fit (m : Mem) : Nat → Nat → Nat → Option Nat
  | 0, _, _ => none
  | fuel + 1, target, size =>
    if target = 0 then some 0
    else if size ≤ readW m target then some target
    else malloc_find_fit m fuel (readW m (target + 16)) size

/-- the while loop of malloc_list_addr_insert: advance front while
front->next is non-null and below the insertee. -/
def insert_walk (m : Mem) : Nat → Nat → Nat → Option Nat
  | 0, _, _ => none
  | fuel + 1, front, item =>
    let nxt := readW m (front + 16)
    if nxt ≠ 0 ∧ nxt < item then insert_walk m fuel nxt item else some front

/-- malloc_list_addr_insert: splice item into the address-ordered
list headed at head; returns the new memory and the new head.  The
two trailing link fixups of the C code reread the just-written prev
and next fields, which the sequencing below reproduces. -/
def malloc_list_addr_insert (m : Mem) (fuel head item : Nat) :
    Option (Mem × Nat) :=
  if head = 0 ∨ item < head then
    let m1 := writeW m (item + 8) 0
    let m2 := writeW m1 (item + 16) head
    let pv := readW m2 (item + 8)
    let m3 := if pv ≠ 0 then writeW m2 (pv + 16) item else m2
    let nx := readW m3 (item + 16)
    let m4 := if nx ≠ 0 then writeW m3 (nx + 8) item else m3
    some (m4, item)
  else
    match insert_walk m fuel head item with
    | none => none
    | some front =>
      let m1 := writeW m (item + 8) front
      let nxt := readW m1 (front + 16)
      let m2 := writeW m1 (item + 16) nxt
      let pv := readW m2 (item + 8)
      let m3 := if pv ≠ 0 then writeW m2 (pv + 16) item else m2
      let nx := readW m3 (item + 16)
      let m4 := if nx ≠ 0 then writeW m3 (nx + 8) item else m3
      some (m4, head)

/-- the while loop of malloc_list_remove: advance front until
front->next equals node.  Reaching NULL would dereference a null
pointer in C, reported as none. -/
def remove_walk (m : Mem) : Nat → Nat → Nat → Option Nat
  | 0, _, _ => none
  | fuel + 1, front, node =>
    if front = 0 then none
    else if readW m (front + 16) = node then some front
    else remove_walk m fuel (readW m (front + 16)) node

/-- malloc_list_remove: splice node out of the list headed at head;
returns the new memory and head. -/
def malloc_list_remove (fuel : Nat) (m : Mem) (head node : Nat) :
    Option (Mem × Nat) :=
  if head = node then
    let nxt := readW m (node + 16)
    if nxt ≠ 0 then some (writeW m (nxt + 8) 0, nxt) else some (m, nxt)
  else
    match remove_walk m fuel head node with
    | none => none
    | some front =>
      let nxt := readW m (node + 16)
      let m1 := writeW m (front + 16) nxt
      if nxt ≠ 0 then some (writeW m1 (nxt + 8) front, head)
      else some (m1, head)

/-- malloc_fnode_split: carve the high end when the leftover reaches
NODE_OVERHEAD, else remove the node; then mark the outgoing chunk
used.  Line 244 of the C source passes node->size (reread at that
point) to malloc_fnode_assign_used, not the local size, and the
else-branch assignment size = node->size is dead; the model mirrors
that read exactly. -/
def malloc_fnode_split (fuel : Nat) (h : Heap) (node size : Nat) : MR :=
  let split := node + size
  let split_size := (readW h.mem node + W64 - size) % W64
  if NODE_OVERHEAD ≤ split_size then
    let m1 := malloc_fnode_assign_free h.mem split split_size
    let pv := readW m1 (node + 8)
    let m2 := writeW m1 (split + 8) pv
    let m3 := if pv ≠ 0 then writeW m2 (pv + 16) split else m2
    let nx := readW m3 (node + 16)
    let m4 := writeW m3 (split + 16) nx
    let m5 := if nx ≠ 0 then writeW m4 (nx + 8) split else m4
    let head2 := if h.flist = node then split else h.flist
    let m6 := malloc_fnode_assign_used m5 node (readW m5 node)
    .ok (node + FENCE_SIZE) { h with mem := m6, flist := head2 }
  else
    match malloc_list_remove fuel h.mem h.flist node with
    | none => .div
    | some (mr, head2) =>
      let m6 := malloc_fnode_assign_used mr node (readW mr node)
      .ok (node + FENCE_SIZE) { h with mem := m6, flist := head2 }

/-- malloc_expand: grow the break and return a fresh free node (0 for
the NULL return).  First growth installs both sentinels and records
HEAP_START; later growths reuse the old high sentinel cell as the new
header and write a fresh high sentinel.  get_memory is modelled from
the spec (see file header): it returns the old break and advances it,
failing once the break would pass memLimit. -/
def malloc_expand (h0 : Heap) (size0 : Nat) : Nat × Heap :=
  let h := { h0 with growCalls := h0.growCalls + 1 }
  if h.PAGE_SIZE = 0 then
    let ps := h.sysPageSize
    let size := ROUNDUP_PAGE ps ((size0 + FENCE_OVERHEAD) % W64)
    let h1 := { h with PAGE_SIZE := ps }
    if h1.brk + size ≤ h1.memLimit then
      let start := h1.brk
      let h2 := { h1 with brk := h1.brk + size }
      let m1 := writeW h2.mem start 1
      let m2 := writeW m1 (start + size - 8) 1
      let start2 := start + FENCE_SIZE
      let size2 := size - FENCE_OVERHEAD
      (start2, { h2 with mem := malloc_fnode_assign_free m2 start2 size2,
                         HEAP_START := start2 })
    else (0, h1)
  else
    let size := ROUNDUP_PAGE h.PAGE_SIZE size0
    if h.brk + size ≤ h.memLimit then
      let start := h.brk
      let h2 := { h with brk := h.brk + size }
      let m1 := writeW h2.mem (start + size - 8) 1
      let start2 := start - FENCE_SIZE
      (start2, { h2 with mem := malloc_fnode_assign_free m1 start2 size })
    else (0, h)

/-- malloc: round the request up to a chunk size, find a first fit or
grow, split, and hand out the payload. -/
def malloc (fuel size0 : Nat) (h : Heap) : MR :=
  match malloc_find_fit h.mem fuel h.flist (ROUNDUP_CHUNK size0) with
  | none => .div
  | some fit =>
    if fit = 0 then
      let eh := malloc_expand h (ROUNDUP_CHUNK size0)
      if eh.1 = 0 then .oom { eh.2 with errno := ENOMEM }
      else
        match malloc_list_addr_insert eh.2.mem fuel eh.2.flist eh.1 with
        | none => .div
        | some (m2, head2) =>
          malloc_fnode_split fuel { eh.2 with mem := m2, flist := head2 }
            eh.1 (ROUNDUP_CHUNK size0)
    else malloc_fnode_split fuel h fit (ROUNDUP_CHUNK size0)

/-- malloc_fnode_release: clear the used bit, rebuild the free node
in place, and insert it into the free list.  The fuse_up and
fuse_down calls of the release path are commented out in the C
source and therefore absent here. -/
def malloc_fnode_release (fuel : Nat) (h : Heap) (target : Nat) :
    Option Heap :=
  let m1 := writeW h.mem target (SET_FREE (readW h.mem target))
  let sz := readW m1 target
  let m2 := malloc_fnode_assign_free m1 target sz
  match malloc_list_addr_insert m2 fuel h.flist target with
  | none => none
  | some (m3, head2) => some { h with mem := m3, flist := head2 }

/-- free: NULL is a no-op, otherwise release the chunk whose header
is one fence before the payload. -/
def free (fuel p : Nat) (h : Heap) : Option Heap :=
  if p = 0 then some h else malloc_fnode_release fuel h (p - FENCE_SIZE)

/-- the calloc zeroing loop: cnt word stores of 0 starting at a. -/
def zeroWords : Mem → Nat → Nat → Mem
  | m, _, 0 => m
  | m, a, cnt + 1 => zeroWords (writeW m a 0) (a + 8) cnt

/-- calloc: overflow guard on bit lengths, then malloc, then zero
number*size / 8 whole words of the payload. -/
def calloc (fuel k s : Nat) (h : Heap) : MR :=
  if 64 < highest k + highest s then .oom { h with errno := ENOMEM }
  else
    match malloc fuel (k * s % W64) h with
    | .ok p h2 => .ok p { h2 with mem := zeroWords h2.mem p (k * s % W64 / 8) }
    | .oom h2 => .oom h2
    | .div => .div

/-- the realloc copy loop: cnt words from src onward to dst onward,
in increasing address order. -/
def copyWords : Mem → Nat → Nat → Nat → Mem
  | m, _, _, 0 => m
  | m, src, dst, cnt + 1 =>
    copyWords (writeW m dst (readW m src)) (src + 8) (dst + 8) cnt

/-- old payload capacity as realloc computes it:
GETSIZE(header) - FENCE_OVERHEAD in size_t arithmetic. -/
def oldCapOf (h : Heap) (p : Nat) : Nat :=
  (GETSIZE (readW h.mem (p - FENCE_SIZE)) + W64 - FENCE_OVERHEAD) % W64

/-- realloc: NULL pointer acts as malloc; zero size frees and returns
the stale pointer; a large enough old chunk is returned unchanged;
otherwise malloc, copy size/8 words, free the old pointer. -/
def realloc (fuel p n : Nat) (h : Heap) : MR :=
  if p = 0 then malloc fuel n h
  else if n = 0 then
    match free fuel p h with
    | some h2 => .ok p h2
    | none => .div
  else if n ≤ oldCapOf h p then .ok p h
  else
    match malloc fuel n h with
    | .ok p2 h2 =>
      (match free fuel p { h2 with mem := copyWords h2.mem p p2 (n / 8) } with
       | some h3 => .ok p2 h3
       | none => .div)
    | .oom h2 => .oom h2
    | .div => .div

/-- forward fence traversal check: every chunk between HEAP_START and
the high sentinel has its header word equal to its footer word
(hence equal sizes and equal used bits). -/
def chunksOk (m : Mem) : Nat → Nat → Bool
  | 0, _ => true
  | fuel + 1, c =>
    let hdr := readW m c
    if hdr = 1 then true
    else (readW m (c + GETSIZE hdr - 8) == hdr) && chunksOk m fuel (c + GETSIZE hdr)

/-- chunk start addresses met by forward fence traversal, up to the
sentinel. -/
def chunkStarts (m : Mem) : Nat → Nat → List Nat
  | 0, _ => []
  | fuel + 1, c =>
    let hdr := readW m c
    if hdr = 1 then [] else c :: chunkStarts m fuel (c + GETSIZE hdr)

/-- does forward fence traversal meet two adjacent chunks that are
both free?  The sentinel word 1 has its used bit set, so traversal
stops there. -/
def hasAdjFreePair (m : Mem) : Nat → Nat → Bool
  | 0, _ => false
  | fuel + 1, c =>
    let hdr := readW m c
    if hdr = 1 then false
    else (!ISUSED hdr && !ISUSED (readW m (c + GETSIZE hdr)))
         || hasAdjFreePair m fuel (c + GETSIZE hdr)

/-- the first fuel nodes of the free list, following next links. -/
def listNodes (m : Mem) : Nat → Nat → List Nat
  | 0, _ => []
  | fuel + 1, front =>
    if front = 0 then [] else front :: listNodes m fuel (readW m (front + 16))

/-- byte view of the word store, for byte-level payload claims; cell
addresses written by the traces are all 8-aligned. -/
def byteAt (m : Mem) (a : Nat) : Nat :=
  readW m (a - a % 8) / 2 ^ (8 * (a % 8)) % 256

/-- untouched process: globals zero, break at 4096, three spare pages
of break headroom, 4096-byte system pages. -/
def virginBig : Heap :=
  { mem := [], PAGE_SIZE := 0, flist := 0, HEAP_START := 0, brk := 4096,
    memLimit := 16384, sysPageSize := 4096, growCalls := 0, errno := 0 }

/-- untouched process whose break may grow by one page only. -/
def virginSmall : Heap :=
  { mem := [], PAGE_SIZE := 0, flist := 0, HEAP_START := 0, brk := 4096,
    memLimit := 8192, sysPageSize := 4096, growCalls := 0, errno := 0 }

/-- state projection of an entry-point outcome. -/
def hOf : MR → Heap
  | .ok _ h => h
  | .oom h => h
  | .div => virginBig

/-- state projection of a free outcome. -/
def oOf : Option Heap → Heap
  | some h => h
  | none => virginBig

/-- trace: one allocation of 1 byte on the untouched heap. -/
def t1 : Heap := hOf (malloc 64 1 virginBig)

/-- trace: allocate 1 byte, then release the payload at 4112. -/
def t2a : Heap := oOf (free 64 4112 t1)

/-- trace: allocate, release, allocate 1 byte again. -/
def t2 : Heap := hOf (malloc 64 1 t2a)

/-- trace: allocate, release, allocate, then allocate 4016 bytes. -/
def t3 : Heap := hOf (malloc 64 4016 t2)

/-- trace: one allocation of 4048 bytes (consumes the whole first
page chunk, no split). -/
def u1 : Heap := hOf (malloc 64 4048 virginBig)

/-- trace: u1 then an allocation of 4064 bytes (grows a second page). -/
def u2 : Heap := hOf (malloc 64 4064 u1)

/-- trace: u2 then release of the first payload. -/
def u3 : Heap := oOf (free 64 4112 u2)

/-- trace: u3 then release of the second payload. -/
def u4 : Heap := oOf (free 64 8192 u3)

/-- trace: allocate 4048 bytes with only one page of break headroom. -/
def v1 : Heap := hOf (malloc 64 4048 virginSmall)

/-! Helper lemmas about the zeroing and copy loops and about the bit
length function. -/

theorem readW_zeroWords_notin (cnt : Nat) : ∀ (m : Mem) (b x : Nat),
    (∀ j, j < cnt → b + 8 * j ≠ x) → readW (zeroWords m b cnt) x = readW m x := by
  induction cnt with
  | zero => intro m b x _; rfl
  | succ c ih =>
    intro m b x hx
    show readW (zeroWords (writeW m b 0) (b + 8) c) x = readW m x
    rw [ih (writeW m b 0) (b + 8) x (fun j hj => by
      have := hx (j + 1) (by omega); omega)]
    rw [readW_writeW, if_neg (by have := hx 0 (by omega); omega)]

theorem zeroWords_read (cnt : Nat) : ∀ (m : Mem) (a i : Nat), i < cnt →
    readW (zeroWords m a cnt) (a + 8 * i) = 0 := by
  induction cnt with
  | zero => intro m a i hi; omega
  | succ c ih =>
    intro m a i hi
    show readW (zeroWords (writeW m a 0) (a + 8) c) (a + 8 * i) = 0
    cases i with
    | zero =>
      rw [readW_zeroWords_notin c _ _ _ (fun j hj => by omega)]
      have h0 : a + 8 * 0 = a := by omega
      rw [h0, readW_writeW, if_pos rfl]
    | succ i2 =>
      have e : a + 8 * (i2 + 1) = (a + 8) + 8 * i2 := by omega
      rw [e]
      exact ih _ _ _ (by omega)

theorem readW_copyWords_notin (cnt : Nat) : ∀ (m : Mem) (src dst x : Nat),
    (∀ j, j < cnt → dst + 8 * j ≠ x) →
    readW (copyWords m src dst cnt) x = readW m x := by
  induction cnt with
  | zero => intro _ _ _ _ _; rfl
  | succ c ih =>
    intro m src dst x hx
    show readW (copyWords (writeW m dst (readW m src)) (src + 8) (dst + 8) c) x
        = readW m x
    rw [ih _ _ _ _ (fun j hj => by have := hx (j + 1) (by omega); omega)]
    rw [readW_writeW, if_neg (by have := hx 0 (by omega); omega)]

theorem copyWords_read (cnt : Nat) : ∀ (m : Mem) (src dst i : Nat), i < cnt →
    (∀ j, j < cnt → dst + 8 * j ≠ src + 8 * i) →
    readW (copyWords m src dst cnt) (dst + 8 * i) = readW m (src + 8 * i) := by
  induction cnt with
  | zero => intro _ _ _ _ hi _; omega
  | succ c ih =>
    intro m src dst i hi hd
    show readW (copyWords (writeW m dst (readW m src)) (src + 8) (dst + 8) c)
        (dst + 8 * i) = readW m (src + 8 * i)
    cases i with
    | zero =>
      rw [readW_copyWords_notin c _ _ _ _ (fun j hj => by omega)]
      have h0 : dst + 8 * 0 = dst := by omega
      have h1 : src + 8 * 0 = src := by omega
      rw [h0, h1, readW_writeW, if_pos rfl]
    | succ i2 =>
      have e1 : dst + 8 * (i2 + 1) = (dst + 8) + 8 * i2 := by omega
      have e2 : src + 8 * (i2 + 1) = (src + 8) + 8 * i2 := by omega
      rw [e1, ih _ _ _ _ (by omega)
        (fun j hj => by have := hd (j + 1) (by omega); omega), ← e2]
      rw [readW_writeW, if_neg (by have := hd 0 (by omega); omega)]

theorem highestAux_lt : ∀ (fuel n : Nat), n < 2 ^ fuel →
    n < 2 ^ highestAux fuel n := by
  intro fuel
  induction fuel with
  | zero => intro n h; simpa [highestAux] using h
  | succ f ih =>
    intro n h
    by_cases h0 : n = 0
    · subst h0; simp [highestAux]
    · have hrec : highestAux (f + 1) n = highestAux f (n / 2) + 1 := by
        simp [highestAux, h0]
      have hd : n / 2 < 2 ^ f := by
        rw [pow_succ] at h; omega
      have hr := ih (n / 2) hd
      rw [hrec, pow_succ]
      omega

theorem highest_mul_lt (k s : Nat) (hk : k < W64) (hs : s < W64)
    (hg : highest k + highest s ≤ 64) : k * s < W64 := by
  have h1 : k < 2 ^ highest k := highestAux_lt 64 k hk
  have h2 : s < 2 ^ highest s := highestAux_lt 64 s hs
  have h3 : k * s < 2 ^ (highest k + highest s) := by
    rw [pow_add]
    exact Nat.mul_lt_mul'' h1 h2
  have h4 : (2 : Nat) ^ (highest k + highest s) ≤ 2 ^ 64 :=
    Nat.pow_le_pow_right (by norm_num) hg
  exact lt_of_lt_of_le h3 h4

theorem malloc_fnode_split_ne_oom (fuel : Nat) (h : Heap) (node size : Nat)
    (h2 : Heap) : malloc_fnode_split fuel h node size ≠ .oom h2 := by
  by_cases hif : NODE_OVERHEAD ≤ (readW h.mem node + W64 - size) % W64
  · simp [malloc_fnode_split, hif]
  · simp only [malloc_fnode_split, if_neg hif]
    rcases malloc_list_remove fuel h.mem h.flist node with _ | ⟨m, hd⟩ <;> simp

theorem malloc_expand_fail_state (h : Heap) (sz : Nat) (hbrk : 8 < h.brk)
    (hfail : (malloc_expand h sz).1 = 0) :
    (malloc_expand h sz).2.mem = h.mem ∧ (malloc_expand h sz).2.flist = h.flist := by
  unfold malloc_expand at hfail ⊢
  simp only [FENCE_SIZE, FENCE_OVERHEAD] at hfail ⊢
  split_ifs at hfail ⊢ <;> first | omega | simp_all

theorem malloc_oom_state (fuel n : Nat) (h h2 : Heap) (hbrk : 8 < h.brk)
    (hm : malloc fuel n h = .oom h2) :
    h2.mem = h.mem ∧ h2.flist = h.flist := by
  unfold malloc at hm
  cases hf : malloc_find_fit h.mem fuel h.flist (ROUNDUP_CHUNK n) with
  | none => rw [hf] at hm; simp at hm
  | some fit =>
    rw [hf] at hm
    simp only at hm
    by_cases h0 : fit = 0
    · rw [if_pos h0] at hm
      by_cases he : (malloc_expand h (ROUNDUP_CHUNK n)).1 = 0
      · rw [if_pos he] at hm
        have h2eq : h2 = { (malloc_expand h (ROUNDUP_CHUNK n)).2 with errno := ENOMEM } := by
          cases hm; rfl
        obtain ⟨hmem, hfl⟩ := malloc_expand_fail_state h _ hbrk he
        rw [h2eq]
        exact ⟨hmem, hfl⟩
      · rw [if_neg he] at hm
        cases hi : malloc_list_addr_insert (malloc_expand h (ROUNDUP_CHUNK n)).2.mem
            fuel (malloc_expand h (ROUNDUP_CHUNK n)).2.flist
            (malloc_expand h (ROUNDUP_CHUNK n)).1 with
        | none => rw [hi] at hm; simp at hm
        | some pr =>
          rw [hi] at hm
          exact absurd hm (malloc_fnode_split_ne_oom _ _ _ _ _)
    · rw [if_neg h0] at hm
      exact absurd hm (malloc_fnode_split_ne_oom _ _ _ _ _)

/-! Claim theorems. -/

/-- C1: refuted by the code.  Line 244 of malloc.c passes node->size,
the original full chunk size, to malloc_fnode_assign_used instead of
the requested size req (the else-branch assignment size = node->size
is dead).  On the untouched heap malloc(1) rounds to req = 32 and
splits the 4080-byte chunk at 4104; the claim requires the outgoing
header at 4104 and footer at 4128 to hold SET_USED 32 = 33 and the
remainder footer at 8176 to hold 4048; the code writes 4081 at 4104
and 8176 (marking the whole 4080-byte extent used and clobbering the
remainder footer) and never writes 4128. -/
theorem split_marks_full_size_bug :
    malloc 64 1 virginBig = .ok 4112 t1 ∧
    ROUNDUP_CHUNK 1 = 32 ∧
    readW t1.mem 4104 = 4081 ∧ readW t1.mem 4104 ≠ SET_USED 32 ∧
    readW t1.mem 4128 = 0 ∧ readW t1.mem 4128 ≠ SET_USED 32 ∧
    readW t1.mem 4136 = 4048 ∧
    readW t1.mem 8176 = 4081 ∧ readW t1.mem 8176 ≠ 4048 :=
  ⟨rfl, by decide, by decide, by decide, by decide, by decide, by decide,
   by decide, by decide⟩

/-- C2: refuted by the code.  After the public-call sequence
malloc(1); free; malloc(1); malloc(4016) (all returning normally),
forward fence traversal from HEAP_START = 4104 meets the chunk at
4104 whose header word is 4081 (used, size 4080) while its footer
word at 4104 + 4080 - 8 = 8176 is 4049 (used, size 4048): header and
footer disagree in size, so the fence invariant is not preserved.
The root cause is the wrong size passed at line 244, which lets one
chunk shadow another. -/
theorem fence_mismatch_trace :
    free 64 4112 t1 = some t2a ∧
    malloc 64 1 t2a = .ok 4112 t2 ∧
    malloc 64 4016 t2 = .ok 4144 t3 ∧
    readW t3.mem 4104 = 4081 ∧
    readW t3.mem 8176 = 4049 ∧
    GETSIZE 4081 = 4080 ∧ GETSIZE 4049 = 4048 ∧
    chunksOk t3.mem 8 t3.HEAP_START = false :=
  ⟨rfl, rfl, rfl, by decide, by decide, by decide, by decide, by decide⟩

/-- C3: refuted by the code.  After malloc(1); free; malloc(1) the
split path re-fences the address 4136 that is already the listed
successor of the node being split and copies the stale next link
onto it, so the free-list head 4136 has itself as next: the node
appears repeatedly and the list is not strictly ascending. -/
theorem freelist_cycle_trace :
    free 64 4112 t1 = some t2a ∧
    malloc 64 1 t2a = .ok 4112 t2 ∧
    t2.flist = 4136 ∧
    readW t2.mem (4136 + 16) = 4136 ∧
    listNodes t2.mem 2 t2.flist = [4136, 4136] :=
  ⟨rfl, rfl, by decide, by decide, by decide⟩

/-- C4: refuted by the code.  The fuse_up and fuse_down calls in
malloc_fnode_release are commented out, so the release path never
attempts fusion.  After malloc(4048); malloc(4064); free; free (two
page-sized chunks, both taken whole, then both released) the chunks
at 4104 (size 4080) and 8184 = 4104 + 4080 (size 4096) are both free
and adjacent, with no entry point executing. -/
theorem adjacent_free_uncoalesced_trace :
    malloc 64 4048 virginBig = .ok 4112 u1 ∧
    malloc 64 4064 u1 = .ok 8192 u2 ∧
    free 64 4112 u2 = some u3 ∧
    free 64 8192 u3 = some u4 ∧
    ISUSED (readW u4.mem 4104) = false ∧
    GETSIZE (readW u4.mem 4104) = 4080 ∧
    ISUSED (readW u4.mem (4104 + 4080)) = false ∧
    hasAdjFreePair u4.mem 8 u4.HEAP_START = true :=
  ⟨rfl, rfl, rfl, rfl, by decide, by decide, by decide, by decide⟩

/-- C5: refuted by the code.  After malloc(1); free; malloc(1);
malloc(4016) the last call returns payload 4144, which is 16-byte
aligned, but 4144 - FENCE_SIZE = 4136 is not a chunk start: forward
fence traversal from HEAP_START finds the single chunk start 4104
(an in-use chunk spanning 4104..8184 that contains 4136 in its
interior), so the second half of the claim fails. -/
theorem payload_not_chunk_start_trace :
    malloc 64 4016 t2 = .ok 4144 t3 ∧
    4144 % 16 = 0 ∧
    chunkStarts t3.mem 8 t3.HEAP_START = [4104] ∧
    (4144 - FENCE_SIZE) ∉ chunkStarts t3.mem 8 t3.HEAP_START :=
  ⟨rfl, by decide, by decide, by decide⟩

/-- C6: confirmed.  calloc returns NULL with errno = ENOMEM and with
no further state change at all (in particular no grow call: the
growCalls counter and the whole remaining state are untouched)
whenever highest(count) + highest(size) exceeds 64 = 8 * W, and the
guard rejects every pair of size_t values whose product reaches
2^64.  The witness instantiates SIZE_MAX and 2. -/
theorem calloc_overflow_guard :
    (∀ fuel k s h, 64 < highest k + highest s →
      calloc fuel k s h = .oom { h with errno := ENOMEM }) ∧
    (∀ a b, a < W64 → b < W64 → W64 ≤ a * b → 64 < highest a + highest b) := by
  constructor
  · intro fuel k s h hg
    unfold calloc
    rw [if_pos hg]
  · intro a b ha hb hab
    by_contra hle
    push_neg at hle
    have h1 : a < 2 ^ highest a := highestAux_lt 64 a ha
    have h2 : b < 2 ^ highest b := highestAux_lt 64 b hb
    have h3 : a * b < 2 ^ (highest a + highest b) := by
      rw [pow_add]
      exact Nat.mul_lt_mul'' h1 h2
    have h4 : (2 : Nat) ^ (highest a + highest b) ≤ 2 ^ 64 :=
      Nat.pow_le_pow_right (by norm_num) hle
    have h5 : a * b < W64 := lt_of_lt_of_le h3 h4
    omega

/-- C6 witness: SIZE_MAX = 2^64 - 1 and 2 trip the guard on the
untouched heap, and the rejection leaves the state unchanged apart
from errno. -/
theorem calloc_overflow_guard_witness :
    64 < highest (2 ^ 64 - 1) + highest 2 ∧
    calloc 64 (2 ^ 64 - 1) 2 virginBig = .oom { virginBig with errno := ENOMEM } :=
  ⟨by decide, calloc_overflow_guard.1 64 (2 ^ 64 - 1) 2 virginBig (by decide)⟩

/-- C7 counterexample: the claim as stated is false.  After
malloc(1); free; calloc(33, 1) the returned payload 4112 has byte
index 32 (which is below k*s = 33) equal to 72, not zero: the zero
loop performs only 33/8 = 4 word stores, and the 33rd byte keeps the
low byte of a stale free-list back link (the word 4168 written at
4144 while the chunk was free). -/
theorem calloc_tail_byte_nonzero :
    calloc 64 33 1 t2a = .ok 4112 (hOf (calloc 64 33 1 t2a)) ∧
    highest 33 + highest 1 ≤ 64 ∧
    32 < 33 * 1 ∧
    byteAt (hOf (calloc 64 33 1 t2a)).mem (4112 + 32) = 72 :=
  ⟨rfl, by decide, by decide, by decide⟩

/-- C7 amended: under the overflow guard, a successful
zero_allocate(k, s) zeroes the first k*s/8 whole words — the first
8 * (k*s/8) bytes — of the payload (the trailing k*s mod 8 bytes are
not written). -/
theorem calloc_zeroes_floor_words (fuel k s p : Nat) (h h2 : Heap)
    (hk : k < W64) (hs : s < W64) (hg : highest k + highest s ≤ 64)
    (hok : calloc fuel k s h = .ok p h2) :
    ∀ i, i < k * s / 8 → readW h2.mem (p + 8 * i) = 0 := by
  have hks : k * s < W64 := highest_mul_lt k s hk hs hg
  have hmod : k * s % W64 = k * s := Nat.mod_eq_of_lt hks
  unfold calloc at hok
  rw [if_neg (by omega), hmod] at hok
  cases hm : malloc fuel (k * s) h with
  | ok q h3 =>
    rw [hm] at hok
    simp only [MR.ok.injEq] at hok
    obtain ⟨hq, hh⟩ := hok
    intro i hi
    rw [← hh, ← hq]
    exact zeroWords_read (k * s / 8) h3.mem q i hi
  | oom h3 => rw [hm] at hok; simp at hok
  | div => rw [hm] at hok; simp at hok

/-- C7 witness for the amended theorem, at the calloc(33, 1) trace:
word 0 of the returned payload reads zero. -/
theorem calloc_zeroes_floor_words_witness :
    (33 < W64 ∧ 1 < W64 ∧ highest 33 + highest 1 ≤ 64 ∧ 0 < 33 * 1 / 8) ∧
    readW (hOf (calloc 64 33 1 t2a)).mem (4112 + 8 * 0) = 0 :=
  ⟨⟨by decide, by decide, by decide, by decide⟩,
   calloc_zeroes_floor_words 64 33 1 4112 t2a (hOf (calloc 64 33 1 t2a))
     (by decide) (by decide) (by decide) rfl 0 (by decide)⟩

set_option maxRecDepth 100000 in
/-- C8 counterexample: the claim as stated is false.  After
malloc(4048) the payload 4112 has capacity 4064; realloc(4112, 4072)
must copy min(4072, 4064) = 4064 bytes, but the code copies
4072/8 = 509 words = 4072 bytes: the destination word at payload
offset 4064 (address 8192 + 4064 = 12256), which read fresh zero
before the call, receives the old chunk footer word 4081 that lies
beyond the old payload. -/
theorem realloc_copies_beyond_old :
    oldCapOf u1 4112 = 4064 ∧ 4064 < 4072 ∧ min 4072 4064 = 4064 ∧
    readW u1.mem 12256 = 0 ∧
    realloc 64 4112 4072 u1 = .ok 8192 (hOf (realloc 64 4112 4072 u1)) ∧
    readW (hOf (realloc 64 4112 4072 u1)).mem 12256 = 4081 :=
  ⟨by decide, by decide, by decide, by decide, rfl, by decide⟩

/-- C8 amended: when the old capacity is below n and the internal
malloc succeeds with pointer p2, realloc copies exactly n/8 words
(8 * (n/8) bytes, determined by n alone, reading past the old
payload when that exceeds it) from the old payload address to the
new one, then releases the old pointer and returns p2; and the copy
loop transfers word i of the source range to word i of the
destination range whenever the two word ranges do not collide. -/
theorem realloc_copy_behavior (fuel p n : Nat) (h : Heap) (p2 : Nat) (h2 : Heap)
    (hp : p ≠ 0) (hn : n ≠ 0) (hlt : oldCapOf h p < n)
    (hm : malloc fuel n h = .ok p2 h2) :
    realloc fuel p n h =
      (match free fuel p { h2 with mem := copyWords h2.mem p p2 (n / 8) } with
       | some h3 => .ok p2 h3
       | none => .div) ∧
    (∀ i, i < n / 8 → (∀ j, j < n / 8 → p2 + 8 * j ≠ p + 8 * i) →
      readW (copyWords h2.mem p p2 (n / 8)) (p2 + 8 * i) = readW h2.mem (p + 8 * i)) := by
  constructor
  · unfold realloc
    rw [if_neg hp, if_neg hn, if_neg (by omega), hm]
  · intro i hi hd
    exact copyWords_read (n / 8) h2.mem p p2 i hi hd

set_option maxRecDepth 100000 in
/-- C8 witness for the amended theorem at the malloc(4048) trace. -/
theorem realloc_copy_behavior_witness :
    (4112 ≠ 0 ∧ 4072 ≠ 0 ∧ oldCapOf u1 4112 < 4072) ∧
    realloc 64 4112 4072 u1 =
      (match free 64 4112 { hOf (malloc 64 4072 u1) with
          mem := copyWords (hOf (malloc 64 4072 u1)).mem 4112 8192 (4072 / 8) } with
       | some h3 => .ok 8192 h3
       | none => .div) :=
  ⟨⟨by decide, by decide, by decide⟩,
   (realloc_copy_behavior 64 4112 4072 u1 8192 (hOf (malloc 64 4072 u1))
     (by decide) (by decide) (by decide) rfl).1⟩

/-- C9: confirmed.  If the internal malloc of resize(p, n) (non-null
p, nonzero n, old capacity below n) reports out of memory, realloc
returns NULL with that state, and the heap words and the free-list
head are exactly those before the call: the old chunk is not
released and its payload is intact.  (The failing malloc may only
have cached the page size and bumped the grow counter.) -/
theorem realloc_alloc_fail_preserves (fuel p n : Nat) (h h2 : Heap)
    (hp : p ≠ 0) (hn : n ≠ 0) (hlt : oldCapOf h p < n) (hbrk : 8 < h.brk)
    (hm : malloc fuel n h = .oom h2) :
    realloc fuel p n h = .oom h2 ∧ h2.mem = h.mem ∧ h2.flist = h.flist := by
  obtain ⟨hmem, hfl⟩ := malloc_oom_state fuel n h h2 hbrk hm
  refine ⟨?_, hmem, hfl⟩
  unfold realloc
  rw [if_neg hp, if_neg hn, if_neg (by omega), hm]

/-- C9 witness: with one page of break headroom, malloc(4048) fills
the heap, and realloc(4112, 4072) fails its internal malloc and
leaves every heap word unchanged. -/
theorem realloc_alloc_fail_preserves_witness :
    (4112 ≠ 0 ∧ 4072 ≠ 0 ∧ oldCapOf v1 4112 < 4072 ∧ 8 < v1.brk) ∧
    realloc 64 4112 4072 v1 = .oom (hOf (malloc 64 4072 v1)) ∧
    (hOf (malloc 64 4072 v1)).mem = v1.mem := by
  have H := realloc_alloc_fail_preserves 64 4112 4072 v1
    (hOf (malloc 64 4072 v1)) (by decide) (by decide) (by decide) (by decide) rfl
  exact ⟨⟨by decide, by decide, by decide, by decide⟩, H.1, H.2.1⟩

/-- C10: confirmed.  allocate(0) follows the ordinary path:
ROUNDUP_CHUNK maps 0 to the minimum chunk size 32, malloc behaves on
a zero request exactly as on a 16-byte request in every state, and
on the untouched heap malloc(0) returns the non-null 16-byte-aligned
payload 4112 rather than a special-cased NULL. -/
theorem malloc_zero_request :
    ROUNDUP_CHUNK 0 = 32 ∧
    (∀ fuel h, malloc fuel 0 h = malloc fuel 16 h) ∧
    malloc 64 0 virginBig = .ok 4112 (hOf (malloc 64 0 virginBig)) ∧
    4112 % 16 = 0 := by
  refine ⟨by decide, ?_, rfl, by decide⟩
  intro fuel h
  have e : ROUNDUP_CHUNK 0 = ROUNDUP_CHUNK 16 := by decide
  simp only [malloc, e]

end MallocModel
